import Mathlib

/-!
Shallow embedding of the `obsidian-prompt-manager` plugin
(`src/main.ts` and the view/modal source file) and verification of the
specification's claims about it.

Strings are modelled as `List Char` (a JavaScript string is a sequence of
code units; all inputs of interest here are plain BMP text).  JavaScript
regular-expression matching for the one regex the plugin uses is embedded
directly, with JavaScript semantics: in particular, in a JavaScript regex
`\z` is an identity escape matching the literal character `z` — it is NOT
an end-of-input anchor (JavaScript has no `\z`; that anchor exists in
Perl/PCRE only).  The source regex is

  `/### Version\s+(\d+(?:\.\d+)?)\n([\s\S]*?)(?=### Version|\z)/g`

so the lookahead terminating a section's lazy body is "the literal text
`### Version`, or the literal character `z`".
-/

namespace PromptManager

/-- The set of characters matched by `\s` in a JavaScript regex (WhiteSpace
plus LineTerminator), which is also exactly the set stripped by
`String.prototype.trim`. -/
def spaceChars : List Char :=
  [' ', '\t', '\n', '\r', '\x0b', '\x0c', ' ', ' ',
   ' ', ' ', ' ', ' ', ' ', ' ', ' ',
   ' ', ' ', ' ', ' ', ' ', ' ', ' ',
   ' ', '　', '﻿']

/-- JavaScript `\s` character class test. -/
def isSpaceJS (c : Char) : Bool := decide (c ∈ spaceChars)

/-- Model of `String.prototype.trim`: strip JavaScript whitespace from both ends. -/
def trimJS (s : List Char) : List Char :=
  ((s.dropWhile isSpaceJS).reverse.dropWhile isSpaceJS).reverse

/-- The literal text `### Version` that both the heading part of the source
regex and the first lookahead alternative consist of. -/
def headingLit : List Char := "### Version".data

/-- Scan for the end of a section's lazily-matched body
(`([\s\S]*?)(?=### Version|\z)` in the source regex): the body extends to
the first position at which either the literal `### Version` starts or the
literal character `z` occurs (JavaScript reads `\z` as the letter `z`).
Returns `(body, suffixAtTerminator)`; `none` when no position up to the end
of input satisfies the lookahead, in which case the whole match attempt
fails. -/
def findTerm : List Char → Option (List Char × List Char)
  | [] => none
  | c :: cs =>
    if headingLit.isPrefixOf (c :: cs) || c == 'z' then some ([], c :: cs)
    else (findTerm cs).map (fun p => (c :: p.1, p.2))

/-- Match `(\d+(?:\.\d+)?)` at the start of `s1`, with the backtracking
behaviour the full regex induces: the integer digit run is maximal, and the
optional fraction `\.\d+` is taken (maximally) whenever a dot followed by a
digit is present — if the following mandatory `\n` then fails to match,
no shorter fraction or dropped fraction can save the attempt, because the
next character would be a digit or the dot respectively.  Returns the
captured number and the rest of the input. -/
def parseVersionNumber (s1 : List Char) : Option (List Char × List Char) :=
  if (s1.takeWhile Char.isDigit).isEmpty then none
  else if (s1.dropWhile Char.isDigit).head? == some '.' &&
      !((s1.dropWhile Char.isDigit).tail.takeWhile Char.isDigit).isEmpty then
    some (s1.takeWhile Char.isDigit ++
            '.' :: (s1.dropWhile Char.isDigit).tail.takeWhile Char.isDigit,
          (s1.dropWhile Char.isDigit).tail.dropWhile Char.isDigit)
  else
    some (s1.takeWhile Char.isDigit, s1.dropWhile Char.isDigit)

/-- Attempt the part of the source regex that follows the `### Version`
literal, on the input suffix `s` that starts right after that literal:
`\s+` (maximal, must be nonempty), the captured number, a mandatory `\n`,
then the lazy body with its lookahead terminator.  Returns
`(capturedVersion, capturedBody, suffixAtMatchEnd)`. -/
def matchAfterHeading (s : List Char) : Option (List Char × List Char × List Char) :=
  if (s.takeWhile isSpaceJS).isEmpty then none
  else
    match parseVersionNumber (s.dropWhile isSpaceJS) with
    | none => none
    | some (ver, s3) =>
      if s3.head? == some '\n' then
        match findTerm s3.tail with
        | some (b, r) => some (ver, b, r)
        | none => none
      else none

/-- Find the leftmost match of the source regex in `s`: try each position
in turn (a JavaScript regex engine advances the start position by one
character after a failed attempt), attempting the full pattern wherever the
literal `### Version` occurs.  Returns `((version, body), suffixAtMatchEnd)`. -/
def findMatch : List Char → Option ((List Char × List Char) × List Char)
  | [] => none
  | c :: cs =>
    match (if headingLit.isPrefixOf (c :: cs)
           then matchAfterHeading (List.drop headingLit.length (c :: cs))
           else none) with
    | some (v, b, r) => some ((v, b), r)
    | none => findMatch cs

/-- Runs `content.matchAll(regex)` driven to a list, fuelled: each successful
match consumes at least the heading literal, one whitespace character, one
digit and one newline, so the suffix passed to the recursive call is
strictly shorter and `length + 1` units of fuel are never exhausted. -/
def matchAllAux : Nat → List Char → List (List Char × List Char)
  | 0, _ => []
  | fuel + 1, s =>
    match findMatch s with
    | none => []
    | some (m, rest) => m :: matchAllAux fuel rest

/-- All matches of the source regex in `content`, in order, as
`(capturedVersion, capturedBody)` pairs. -/
def matchAllVersions (content : List Char) : List (List Char × List Char) :=
  matchAllAux (content.length + 1) content

/-- The record produced by `extractPromptData`. -/
structure ExtractResult where
  version : List Char
  details : List Char
  fullContent : List Char
deriving DecidableEq, Repr

/-- The template literal `### Version ${v[1]}\n${v[2]}` rebuilt per match. -/
def sectionText (m : List Char × List Char) : List Char :=
  headingLit ++ ' ' :: (m.1 ++ '\n' :: m.2)

/-- Model of `Array.prototype.join('\n\n')`. -/
def joinNN : List (List Char) → List Char
  | [] => []
  | [x] => x
  | x :: y :: rest => x ++ '\n' :: '\n' :: joinNN (y :: rest)

/-- Embedding of `PromptView.extractPromptData`: run the regex over the whole document;
with no match fall back to `version = "0.0"`, `details = content.trim()`,
`fullContent = content`; otherwise take version and trimmed body from the
last match and rejoin every match's rebuilt section with blank lines for
`fullContent`. -/
def extractPromptData (content : List Char) : ExtractResult :=
  match matchAllVersions content with
  | [] => ⟨"0.0".data, trimJS content, content⟩
  | m :: ms =>
    ⟨(List.getLastD ms m).1,
     trimJS (List.getLastD ms m).2,
     joinNN ((m :: ms).map sectionText)⟩

/-- Count the occurrences (at any position, as in a regex scan) of the
pattern `pat` in a text. -/
def countSub (pat : List Char) : List Char → Nat
  | [] => 0
  | c :: cs => (if pat.isPrefixOf (c :: cs) then 1 else 0) + countSub pat cs

/-- Full match of the captured-version pattern `\d+(?:\.\d+)?`: one or more
digits, optionally followed by a dot and one or more digits. -/
def versionPattern (v : List Char) : Bool :=
  let rest := v.dropWhile Char.isDigit
  !(v.takeWhile Char.isDigit).isEmpty &&
    (rest.isEmpty ||
      (rest.head? == some '.' && !rest.tail.isEmpty && rest.tail.all Char.isDigit))

/-- Numeric value of a digit string (most significant digit first). -/
def digitsToNat (l : List Char) : Nat :=
  l.foldl (fun a c => 10 * a + (c.toNat - 48)) 0

/-- JavaScript `parseFloat`, on the fragment of its grammar that can reach
this plugin: optional leading whitespace, optional sign, digits with an
optional fraction; trailing garbage is ignored.  `none` plays the role of
`NaN`.  (The exponent and `Infinity` productions are omitted: no version
string the plugin ever produces contains `e`, `E` or `I`.) -/
def parseFloatQ (s0 : List Char) : Option ℚ :=
  let s := s0.dropWhile isSpaceJS
  let sgn : Int := if s.head? == some '-' then -1 else 1
  let t := if s.head? == some '-' || s.head? == some '+' then s.tail else s
  let d1 := t.takeWhile Char.isDigit
  let t1 := t.dropWhile Char.isDigit
  let d2 := if t1.head? == some '.' then t1.tail.takeWhile Char.isDigit else []
  if d1.isEmpty && d2.isEmpty then none
  else
    some (mkRat (sgn * (digitsToNat d1 * 10 ^ d2.length + digitsToNat d2)) (10 ^ d2.length))

/-- A file of the host vault: its parent folder's path, base name,
extension and text content. -/
structure VaultFile where
  parent : List Char
  basename : List Char
  extension : List Char
  content : List Char
deriving DecidableEq, Repr, Inhabited

/-- The slice of the host vault the plugin touches: which paths resolve to
an existing folder, and the files with their metadata and contents. -/
structure Vault where
  folders : List (List Char)
  files : List VaultFile
deriving DecidableEq, Repr

/-- The in-memory prompt record built during `refresh` (interface
`PromptData` in the source). -/
structure PromptData where
  name : List Char
  version : List Char
  details : List Char
  fullContent : List Char
  file : VaultFile
deriving DecidableEq, Repr, Inhabited

/-- The comparator `(a, b) => parseFloat(b.version) - parseFloat(a.version)`
as the Boolean relation "`a` may be placed before `b`", i.e. the comparator
value is `≤ 0`.  Per the ECMAScript `SortCompare` specification a `NaN`
comparator result is treated as `+0`, so a pair with an unparsable version
compares as equal. -/
def sortLE (a b : PromptData) : Bool :=
  match parseFloatQ a.version, parseFloatQ b.version with
  | some x, some y => decide (y ≤ x)
  | _, _ => true

/-- Insert into a sorted prefix, keeping the inserted (originally later)
element after any element it compares equal to. -/
def orderedInsertB (le : α → α → Bool) (a : α) : List α → List α
  | [] => [a]
  | b :: l => if le a b then a :: b :: l else b :: orderedInsertB le a l

/-- A stable comparison sort, modelling `Array.prototype.sort` (which
ECMAScript requires to be stable, and to sort whenever the comparator is
consistent on the array's elements). -/
def insertionSortB (le : α → α → Bool) : List α → List α
  | [] => []
  | a :: l => orderedInsertB le a (insertionSortB le l)

/-- Notice shown when the configured folder path is empty. -/
def noticeSelectFolder : List Char :=
  "Please select a prompts folder in the plugin settings.".data

/-- Notice shown when the configured path does not resolve to a folder. -/
def noticeInvalidFolder : List Char := "Invalid prompts folder selected.".data

/-- Embedding of `PromptView.refresh`, as a function from the configured folder path,
the vault, and the view's current `prompts` collection to the new
collection plus the notices emitted.  The source's early returns on an
empty path (`!promptFolderPath`, the empty string being falsy) and on a
path that does not resolve to a `TFolder` leave `this.prompts` untouched
and show one notice; otherwise the immediate children of the folder are
filtered to `.md` files, each is read and run through
`extractPromptData`, and the rebuilt collection is sorted by descending
numeric version. -/
def refreshRun (folderPath : List Char) (vault : Vault) (prompts : List PromptData) :
    List PromptData × List (List Char) :=
  if folderPath.isEmpty then (prompts, [noticeSelectFolder])
  else if vault.folders.contains folderPath then
    (insertionSortB sortLE
      (((vault.files.filter (fun f => f.parent == folderPath)).filter
          (fun f => f.extension == "md".data)).map (fun f =>
        { name := f.basename,
          version := (extractPromptData f.content).version,
          details := (extractPromptData f.content).details,
          fullContent := (extractPromptData f.content).fullContent,
          file := f })),
     [])
  else (prompts, [noticeInvalidFolder])

/-- Success notice of the copy buttons:
`` `Copied prompt version ${prompt.version} content` ``. -/
def copySuccessNotice (version : List Char) : List Char :=
  "Copied prompt version ".data ++ version ++ " content".data

/-- Failure notice of the copy buttons. -/
def copyFailNotice : List Char := "Failed to copy content".data

/-- The click handler of the Copy button (identical in `renderList` and
`renderBoard`): pass `prompt.details` to `navigator.clipboard.writeText`
and show a success or failure notice depending on how that promise
settles.  Returns `(textWrittenToClipboard, noticeShown)`. -/
def copyClick (p : PromptData) (clipboardOk : Bool) : List Char × List Char :=
  (p.details, if clipboardOk then copySuccessNotice p.version else copyFailNotice)

/-- Model of `String.prototype.toLowerCase` on the ASCII range (no rendered text of
this plugin is case-mapped outside ASCII). -/
def toLowerJS (s : List Char) : List Char := s.map Char.toLower

/-- Model of `String.prototype.includes`: is `needle` a contiguous substring of the
receiver? -/
def includesJS (needle : List Char) : List Char → Bool
  | [] => needle.isEmpty
  | c :: cs => needle.isPrefixOf (c :: cs) || includesJS needle cs

/-- Embedding of `PromptView.filterPrompts`: for each rendered row/card (given here by
its rendered text), show it exactly when its lowercased text contains the
search term; `true` = shown, `false` = hidden (`display: none`). -/
def filterPrompts (searchTerm : List Char) (itemTexts : List (List Char)) : List Bool :=
  itemTexts.map (fun t => includesJS searchTerm (toLowerJS t))

/-- The search box's input listener lowercases the query before calling
`filterPrompts`. -/
def searchFilter (query : List Char) (itemTexts : List (List Char)) : List Bool :=
  filterPrompts (toLowerJS query) itemTexts

/-- Outcome of confirming the New Prompt modal. -/
inductive CreateResult where
  | noAction
  | notice (msg : List Char)
  | created (path : List Char) (content : List Char)
deriving DecidableEq, Repr

/-- Seed content of a new prompt:
`` `### Version 1.0\n\nNew prompt content` ``. -/
def newPromptTemplate : List Char := "### Version 1.0\n\nNew prompt content".data

/-- The confirm callback that `PromptView.showNewPromptModal` installs on
the modal: with a falsy (empty) name the whole body is skipped; otherwise
the configured folder is validated exactly as in `refresh`, and on success
`this.app.vault.create(name + '.md', content)` is called — note the path
handed to `vault.create` is `name + '.md'`, with no folder prefix. -/
def showNewPromptSubmit (name folderPath : List Char) (vault : Vault) : CreateResult :=
  if name.isEmpty then .noAction
  else if folderPath.isEmpty then .notice noticeSelectFolder
  else if vault.folders.contains folderPath then
    .created (name ++ ".md".data) newPromptTemplate
  else .notice noticeInvalidFolder

/-! ## Helper lemmas -/

theorem digit_not_space {c : Char} (hd : c.isDigit = true) : isSpaceJS c = false := by
  cases hs : isSpaceJS c
  · rfl
  · exfalso
    have hmem : c ∈ spaceChars := of_decide_eq_true hs
    fin_cases hmem <;> exact absurd hd (by decide)

theorem digit_ne_of {c d : Char} (hd : c.isDigit = true) (h : d.isDigit = false) : c ≠ d := by
  intro he
  subst he
  rw [hd] at h
  cases h

theorem takeWhile_eq_self_of {p : α → Bool} {l : List α} (h : ∀ a ∈ l, p a = true) :
    l.takeWhile p = l := by
  have := @List.takeWhile_append_of_pos _ p l [] (by simpa using h)
  simpa using this

theorem dropWhile_eq_nil_of {p : α → Bool} {l : List α} (h : ∀ a ∈ l, p a = true) :
    l.dropWhile p = [] := by
  have := @List.dropWhile_append_of_pos _ p l [] (by simpa using h)
  simpa using this

theorem versionPattern_digits {d1 : List Char} (h1 : d1 ≠ [])
    (hall : ∀ c ∈ d1, c.isDigit = true) : versionPattern d1 = true := by
  have ht : d1.takeWhile Char.isDigit = d1 := takeWhile_eq_self_of hall
  have hd : d1.dropWhile Char.isDigit = [] := dropWhile_eq_nil_of hall
  simp [versionPattern, ht, hd, h1]

theorem versionPattern_digits_dot {d1 d2 : List Char} (h1 : d1 ≠ []) (h2 : d2 ≠ [])
    (hall1 : ∀ c ∈ d1, c.isDigit = true) (hall2 : ∀ c ∈ d2, c.isDigit = true) :
    versionPattern (d1 ++ '.' :: d2) = true := by
  have ht : (d1 ++ '.' :: d2).takeWhile Char.isDigit = d1 := by
    rw [List.takeWhile_append_of_pos (by simpa using hall1)]
    simp [List.takeWhile_cons_of_neg]
  have hd : (d1 ++ '.' :: d2).dropWhile Char.isDigit = '.' :: d2 := by
    rw [List.dropWhile_append_of_pos (by simpa using hall1)]
    simp [List.dropWhile_cons_of_neg]
  simp [versionPattern, ht, hd, h1, h2, List.all_eq_true]
  intro c hc
  exact hall2 c hc

theorem parseVersionNumber_pattern {s1 v rest : List Char}
    (h : parseVersionNumber s1 = some (v, rest)) : versionPattern v = true := by
  unfold parseVersionNumber at h
  split at h
  · exact absurd h (by simp)
  next hguard =>
    have h1 : s1.takeWhile Char.isDigit ≠ [] := by
      simpa [List.isEmpty_iff] using hguard
    have hall1 : ∀ c ∈ s1.takeWhile Char.isDigit, c.isDigit = true :=
      fun c hc => List.mem_takeWhile_imp hc
    split at h
    next hfrac =>
      rw [Bool.and_eq_true] at hfrac
      have h2 : (s1.dropWhile Char.isDigit).tail.takeWhile Char.isDigit ≠ [] := by
        simpa [List.isEmpty_iff] using hfrac.2
      have hall2 : ∀ c ∈ (s1.dropWhile Char.isDigit).tail.takeWhile Char.isDigit,
          c.isDigit = true := fun c hc => List.mem_takeWhile_imp hc
      simp only [Option.some.injEq, Prod.mk.injEq] at h
      rw [← h.1]
      exact versionPattern_digits_dot h1 h2 hall1 hall2
    next =>
      simp only [Option.some.injEq, Prod.mk.injEq] at h
      rw [← h.1]
      exact versionPattern_digits h1 hall1

theorem matchAfterHeading_version {s v b r : List Char}
    (h : matchAfterHeading s = some (v, b, r)) : versionPattern v = true := by
  unfold matchAfterHeading at h
  split at h
  · exact absurd h (by simp)
  · split at h
    next => exact absurd h (by simp)
    next ver s3 hp =>
      split at h
      · split at h
        next b' r' hterm =>
          simp only [Option.some.injEq, Prod.mk.injEq] at h
          rw [← h.1]
          exact parseVersionNumber_pattern hp
        next => exact absurd h (by simp)
      · exact absurd h (by simp)

theorem findMatch_version : ∀ {s v b r : List Char},
    findMatch s = some ((v, b), r) → versionPattern v = true := by
  intro s
  induction s with
  | nil => intro v b r h; simp [findMatch] at h
  | cons c cs ih =>
    intro v b r h
    rw [findMatch] at h
    split at h
    next v' b' r' heq =>
      split at heq
      · simp only [Option.some.injEq, Prod.mk.injEq] at h
        rw [← h.1.1]
        exact matchAfterHeading_version heq
      · exact absurd heq (by simp)
    next => exact ih h

theorem matchAllAux_version : ∀ {fuel : Nat} {s : List Char} {m : List Char × List Char},
    m ∈ matchAllAux fuel s → versionPattern m.1 = true := by
  intro fuel
  induction fuel with
  | zero => intro s m h; simp [matchAllAux] at h
  | succ n ih =>
    intro s m h
    rw [matchAllAux] at h
    split at h
    · simp at h
    next m' rest heq =>
      obtain ⟨mv, mb⟩ := m'
      rcases List.mem_cons.mp h with rfl | hm
      · exact findMatch_version heq
      · exact ih hm

theorem getLastD_mem : ∀ (l : List α) (a : α), l.getLastD a ∈ a :: l := by
  intro l
  induction l with
  | nil => intro a; simp [List.getLastD]
  | cons b t ih =>
    intro a
    rw [List.getLastD_cons]
    rcases List.mem_cons.mp (ih b) with h | h
    · rw [h]
      exact List.mem_cons_of_mem _ (List.mem_cons_self _ _)
    · exact List.mem_cons_of_mem _ (List.mem_cons_of_mem _ h)

theorem extract_versionPattern (content : List Char) :
    (extractPromptData content).version = "0.0".data ∨
      versionPattern (extractPromptData content).version = true := by
  unfold extractPromptData
  split
  · left; rfl
  next m ms heq =>
    right
    have hmem : List.getLastD ms m ∈ matchAllVersions content := by
      rw [heq]; exact getLastD_mem ms m
    exact matchAllAux_version hmem

theorem parseFloatQ_isSome_of_digit_head {c : Char} {vs : List Char} (hc : c.isDigit = true) :
    (parseFloatQ (c :: vs)).isSome = true := by
  have hs : isSpaceJS c = false := digit_not_space hc
  have hm : c ≠ '-' := digit_ne_of hc (show Char.isDigit '-' = false by decide)
  have hp : c ≠ '+' := digit_ne_of hc (show Char.isDigit '+' = false by decide)
  have hdw : List.dropWhile isSpaceJS (c :: vs) = c :: vs :=
    List.dropWhile_cons_of_neg (by simp [hs])
  have htk : List.takeWhile Char.isDigit (c :: vs) = c :: List.takeWhile Char.isDigit vs :=
    List.takeWhile_cons_of_pos (by simp [hc])
  have hcm : (some c == some '-') = false := by simp [hm]
  have hcp : (some c == some '+') = false := by simp [hp]
  simp only [parseFloatQ, hdw, List.head?_cons, hcm, hcp, Bool.or_self, Bool.false_or,
    Bool.false_eq_true, if_false, htk, List.isEmpty_cons, Bool.false_and,
    Option.isSome_some]

theorem parseFloatQ_of_versionPattern {v : List Char} (h : versionPattern v = true) :
    (parseFloatQ v).isSome = true := by
  cases v with
  | nil => exact absurd h (by decide)
  | cons c vs =>
    have h1 : ¬((c :: vs).takeWhile Char.isDigit).isEmpty = true := by
      intro hce
      unfold versionPattern at h
      rw [Bool.and_eq_true] at h
      rw [hce] at h
      exact absurd h.1 (by decide)
    have hc : c.isDigit = true := by
      by_contra hcd
      rw [List.takeWhile_cons_of_neg (by simpa using hcd)] at h1
      exact h1 rfl
    exact parseFloatQ_isSome_of_digit_head hc

theorem extract_parseFloat_isSome (content : List Char) :
    (parseFloatQ (extractPromptData content).version).isSome = true := by
  rcases extract_versionPattern content with h | h
  · rw [h]; decide
  · exact parseFloatQ_of_versionPattern h

theorem mem_orderedInsertB {le : α → α → Bool} {x : α} :
    ∀ {l : List α} {y : α}, y ∈ orderedInsertB le x l ↔ y = x ∨ y ∈ l := by
  intro l
  induction l with
  | nil => intro y; simp [orderedInsertB]
  | cons b t ih =>
    intro y
    unfold orderedInsertB
    by_cases h : le x b = true
    · simp [h]
    · simp only [if_neg h, List.mem_cons, ih]
      tauto

theorem mem_insertionSortB {le : α → α → Bool} :
    ∀ {l : List α} {y : α}, y ∈ insertionSortB le l ↔ y ∈ l := by
  intro l
  induction l with
  | nil => intro y; simp [insertionSortB]
  | cons a t ih =>
    intro y
    simp only [insertionSortB, mem_orderedInsertB, ih, List.mem_cons]

theorem pairwise_orderedInsertB {le : α → α → Bool} (P : α → Prop)
    (htot : ∀ a b, P a → P b → le a b = true ∨ le b a = true)
    (htr : ∀ a b c, P a → P b → P c → le a b = true → le b c = true → le a c = true)
    {x : α} (hx : P x) :
    ∀ {l : List α}, (∀ y ∈ l, P y) → l.Pairwise (fun a b => le a b = true) →
      (orderedInsertB le x l).Pairwise (fun a b => le a b = true) := by
  intro l
  induction l with
  | nil => intro _ _; simp [orderedInsertB]
  | cons b t ih =>
    intro hP hs
    rw [List.pairwise_cons] at hs
    obtain ⟨hb, ht⟩ := hs
    unfold orderedInsertB
    by_cases h : le x b = true
    · rw [if_pos h, List.pairwise_cons]
      refine ⟨?_, List.pairwise_cons.mpr ⟨hb, ht⟩⟩
      intro y hy
      rcases List.mem_cons.mp hy with rfl | hyt
      · exact h
      · exact htr x b y hx (hP b (List.mem_cons_self _ _))
          (hP y (List.mem_cons_of_mem _ hyt)) h (hb y hyt)
    · rw [if_neg h, List.pairwise_cons]
      have hbx : le b x = true :=
        (htot x b hx (hP b (List.mem_cons_self _ _))).resolve_left h
      constructor
      · intro y hy
        rcases mem_orderedInsertB.mp hy with rfl | hyt
        · exact hbx
        · exact hb y hyt
      · exact ih (fun y hy => hP y (List.mem_cons_of_mem _ hy)) ht

theorem pairwise_insertionSortB {le : α → α → Bool} (P : α → Prop)
    (htot : ∀ a b, P a → P b → le a b = true ∨ le b a = true)
    (htr : ∀ a b c, P a → P b → P c → le a b = true → le b c = true → le a c = true) :
    ∀ {l : List α}, (∀ y ∈ l, P y) →
      (insertionSortB le l).Pairwise (fun a b => le a b = true) := by
  intro l
  induction l with
  | nil => intro _; simp [insertionSortB]
  | cons a t ih =>
    intro hP
    exact pairwise_orderedInsertB P htot htr (hP a (List.mem_cons_self _ _))
      (fun y hy => hP y (List.mem_cons_of_mem _ (mem_insertionSortB.mp hy)))
      (ih (fun y hy => hP y (List.mem_cons_of_mem _ hy)))

/-! ## Claims -/

/-- C1 (code bug): the specification's example expects
`version="2.0"`, `details="Bar"` and a two-section `fullContent` for the
input `"### Version 1.0\nFoo\n### Version 2.0\nBar"`, i.e. the intended
end-of-input anchor semantics for `\z`.  In JavaScript `\z` matches a
literal `z`, so the second section — which runs to end of input and
contains no `z` — never matches: the code returns `version="1.0"`,
`details="Foo"` and a one-section `fullContent`.  This theorem evaluates
the embedded code at the example input. -/
theorem extract_example_eval :
    extractPromptData ("### Version 1.0\nFoo\n### Version 2.0\nBar".data) =
      ⟨"1.0".data, "Foo".data, "### Version 1.0\nFoo\n".data⟩ := by decide

/-- C2 (code bug): a document with two `### Version` headings for which
`extractPromptData` keeps only one heading in `fullContent` and takes
`version`/`details` from the first heading rather than the last, because
the final section (ending at end of input, containing no `z`) never
matches the source regex. -/
theorem extract_two_sections_eval :
    countSub headingLit ("### Version 1.0\nA\n### Version 2.0\nB".data) = 2 ∧
      extractPromptData ("### Version 1.0\nA\n### Version 2.0\nB".data) =
        ⟨"1.0".data, "A".data, "### Version 1.0\nA\n".data⟩ ∧
      countSub headingLit
        (extractPromptData ("### Version 1.0\nA\n### Version 2.0\nB".data)).fullContent = 1 :=
  ⟨by decide, by decide, by decide⟩

/-- C3 (code bug): confirming the New Prompt dialog with name `"Greeting"`
while the configured folder `"prompts"` exists creates the file at path
`"Greeting.md"` — the vault root — not at `"prompts/Greeting.md"`: the
handler validates the configured folder but then calls
`vault.create(name + '.md', content)` without the folder prefix.  The seed
content does match the claimed template. -/
theorem newPrompt_creates_at_root :
    showNewPromptSubmit ("Greeting".data) ("prompts".data) ⟨["prompts".data], []⟩ =
        .created ("Greeting.md".data) ("### Version 1.0\n\nNew prompt content".data) ∧
      "Greeting.md".data ≠ "prompts/Greeting.md".data :=
  ⟨by decide, by decide⟩

/-- C4: when the configured folder path is empty or does not resolve to an
existing folder, `refresh` terminates normally (the embedding is a total
function), leaves the view's `prompts` collection exactly as it was, and
surfaces exactly one transient notice. -/
theorem refresh_invalid_folder_preserves (folderPath : List Char) (vault : Vault)
    (prompts : List PromptData)
    (h : folderPath = [] ∨ folderPath ∉ vault.folders) :
    (refreshRun folderPath vault prompts).1 = prompts ∧
      (refreshRun folderPath vault prompts).2.length = 1 := by
  unfold refreshRun
  by_cases hemp : folderPath.isEmpty = true
  · rw [if_pos hemp]
    exact ⟨rfl, rfl⟩
  · rw [if_neg hemp]
    have hmem : folderPath ∉ vault.folders := by
      rcases h with rfl | h
      · exact absurd rfl hemp
      · exact h
    have hcon : vault.folders.contains folderPath = false := by
      rw [show vault.folders.contains folderPath = List.elem folderPath vault.folders from rfl,
        List.elem_eq_mem]
      simpa using hmem
    rw [if_neg (by simp [hcon]; exact hmem)]
    exact ⟨rfl, rfl⟩

/-- Witness for C4: an empty folder path with a nonempty stale collection;
the collection survives unchanged and one notice is emitted. -/
theorem refresh_invalid_folder_witness :
    (refreshRun [] ⟨[], []⟩ [default]).1 = [default] ∧
      (refreshRun [] ⟨[], []⟩ [default]).2.length = 1 :=
  refresh_invalid_folder_preserves [] ⟨[], []⟩ [default] (Or.inl rfl)

/-- C5: after a successful `refresh` (nonempty configured path resolving
to an existing folder), any two adjacent records of the resulting
collection whose version strings both parse as numbers are in descending
numeric order. -/
theorem refresh_sorted_desc (folderPath : List Char) (vault : Vault)
    (prompts : List PromptData) (i : Nat) (x y : ℚ)
    (hne : folderPath ≠ []) (hmem : folderPath ∈ vault.folders)
    (hi : i + 1 < (refreshRun folderPath vault prompts).1.length)
    (hx : parseFloatQ ((refreshRun folderPath vault prompts).1.getD i default).version =
      some x)
    (hy : parseFloatQ ((refreshRun folderPath vault prompts).1.getD (i + 1) default).version =
      some y) :
    y ≤ x := by
  have hpair : ((refreshRun folderPath vault prompts).1).Pairwise
      (fun a b => sortLE a b = true) := by
    unfold refreshRun
    rw [if_neg (by simp [hne]), if_pos (by
      rw [show vault.folders.contains folderPath = List.elem folderPath vault.folders from rfl,
        List.elem_eq_mem]
      simp [hmem])]
    apply pairwise_insertionSortB (fun p => (parseFloatQ p.version).isSome = true)
    · intro a b ha hb
      rw [Option.isSome_iff_exists] at ha hb
      obtain ⟨xa, ha⟩ := ha
      obtain ⟨xb, hb⟩ := hb
      unfold sortLE
      rw [ha, hb]
      rcases le_total xb xa with hle | hle
      · exact Or.inl (by simpa using hle)
      · exact Or.inr (by simpa using hle)
    · intro a b c ha hb hc hab hbc
      rw [Option.isSome_iff_exists] at ha hb hc
      obtain ⟨xa, ha⟩ := ha
      obtain ⟨xb, hb⟩ := hb
      obtain ⟨xc, hc⟩ := hc
      unfold sortLE at hab hbc ⊢
      rw [ha, hb] at hab
      rw [hb, hc] at hbc
      rw [ha, hc]
      simp only [decide_eq_true_eq] at hab hbc ⊢
      exact le_trans hbc hab
    · intro p hp
      rw [List.mem_map] at hp
      obtain ⟨f, -, rfl⟩ := hp
      exact extract_parseFloat_isSome f.content
  have hi0 : i < (refreshRun folderPath vault prompts).1.length := by omega
  have h1 : (refreshRun folderPath vault prompts).1.getD i default =
      (refreshRun folderPath vault prompts).1.get ⟨i, hi0⟩ := by
    rw [List.getD_eq_getElem?_getD, List.getElem?_eq_getElem hi0]
    rfl
  have h2 : (refreshRun folderPath vault prompts).1.getD (i + 1) default =
      (refreshRun folderPath vault prompts).1.get ⟨i + 1, hi⟩ := by
    rw [List.getD_eq_getElem?_getD, List.getElem?_eq_getElem hi]
    rfl
  have hadj := List.pairwise_iff_get.mp hpair ⟨i, hi0⟩ ⟨i + 1, hi⟩ (by simp)
  rw [h1] at hx
  rw [h2] at hy
  have : sortLE ((refreshRun folderPath vault prompts).1.get ⟨i, hi0⟩)
      ((refreshRun folderPath vault prompts).1.get ⟨i + 1, hi⟩) = true := hadj
  unfold sortLE at this
  rw [hx, hy] at this
  simpa using this

/-- Witness for C5: a folder with two prompt files whose parsed versions
are 3 and 1.5; after refresh they appear in descending order. -/
theorem refresh_sorted_desc_witness :
    parseFloatQ ((refreshRun ("prompts".data)
        ⟨["prompts".data],
         [⟨"prompts".data, "a".data, "md".data, "### Version 3.0\nz".data⟩,
          ⟨"prompts".data, "b".data, "md".data, "### Version 1.5\nz".data⟩]⟩
        []).1.getD 0 default).version = some (mkRat 3 1) ∧
      parseFloatQ ((refreshRun ("prompts".data)
        ⟨["prompts".data],
         [⟨"prompts".data, "a".data, "md".data, "### Version 3.0\nz".data⟩,
          ⟨"prompts".data, "b".data, "md".data, "### Version 1.5\nz".data⟩]⟩
        []).1.getD 1 default).version = some (mkRat 3 2) ∧
      mkRat 3 2 ≤ mkRat 3 1 :=
  ⟨by decide, by decide,
    refresh_sorted_desc ("prompts".data)
      ⟨["prompts".data],
       [⟨"prompts".data, "a".data, "md".data, "### Version 3.0\nz".data⟩,
        ⟨"prompts".data, "b".data, "md".data, "### Version 1.5\nz".data⟩]⟩
      [] 0 (mkRat 3 1) (mkRat 3 2) (by decide) (by decide) (by decide) (by decide)
      (by decide)⟩

/-- C6: whenever the regex scan finds zero version sections,
`extractPromptData` falls back to `version = "0.0"`, `details` = the
whitespace-trimmed whole text and `fullContent` = the unmodified input. -/
theorem extract_no_sections (content : List Char)
    (h : matchAllVersions content = []) :
    extractPromptData content = ⟨"0.0".data, trimJS content, content⟩ := by
  simp only [extractPromptData, h]

/-- Witness for C6: the specification's example `"no headings here"`. -/
theorem extract_no_sections_witness :
    matchAllVersions ("no headings here".data) = [] ∧
      extractPromptData ("no headings here".data) =
        ⟨"0.0".data, "no headings here".data, "no headings here".data⟩ := by
  refine ⟨by decide, ?_⟩
  rw [extract_no_sections ("no headings here".data) (by decide)]
  decide

/-- C7: the Copy handler (identical in the list and board renderings)
hands exactly the record's `details` — never `fullContent` — to the
clipboard, and shows either the success notice or the failure notice
depending on how the clipboard promise settles. -/
theorem copy_writes_details (p : PromptData) (clipboardOk : Bool) :
    (copyClick p clipboardOk).1 = p.details ∧
      ((copyClick p clipboardOk).2 = copySuccessNotice p.version ∨
        (copyClick p clipboardOk).2 = copyFailNotice) := by
  cases clipboardOk
  · exact ⟨rfl, Or.inr rfl⟩
  · exact ⟨rfl, Or.inl rfl⟩

/-- C8: the search filter shows the `i`-th rendered row/card exactly when
the lowercased rendered text contains the lowercased query as a substring. -/
theorem filter_shows_iff_contains (query : List Char) (items : List (List Char)) (i : Nat)
    (hi : i < items.length) :
    ((searchFilter query items).getD i false = true ↔
      includesJS (toLowerJS query) (toLowerJS (items.getD i [])) = true) := by
  have hsome : items[i]? = some items[i] := List.getElem?_eq_getElem hi
  simp [searchFilter, filterPrompts, List.getD_eq_getElem?_getD, hsome]

/-- Witness for C8: the query `"BA"` matches the second item `"Abba"`
case-insensitively, so that item is shown. -/
theorem filter_shows_witness :
    (searchFilter ("BA".data) ["alpha".data, "Abba".data]).getD 1 false = true :=
  (filter_shows_iff_contains ("BA".data) ["alpha".data, "Abba".data] 1 (by decide)).mpr
    (by decide)

/-- C9: confirming the New Prompt dialog with the empty name string does
nothing at all — no file, no notice, no change to the collection (the
handler's body is guarded by `if (name)` with no else branch). -/
theorem newPrompt_empty_name_noop (folderPath : List Char) (vault : Vault) :
    showNewPromptSubmit [] folderPath vault = .noAction := rfl

/-- C10: on every input, the version string `extractPromptData` returns is
the literal `"0.0"` or a full match of `\d+(?:\.\d+)?`, and consequently
`parseFloat` of it never yields NaN. -/
theorem extract_version_wellFormed (content : List Char) :
    ((extractPromptData content).version = "0.0".data ∨
        versionPattern (extractPromptData content).version = true) ∧
      (parseFloatQ (extractPromptData content).version).isSome = true :=
  ⟨extract_versionPattern content, extract_parseFloat_isSome content⟩

end PromptManager
